import Mathlib

/-!
Verification of the Arvados boot supervisor (lib/boot/supervisor.go).

This file gives a shallow embedding of the pure decision logic of the boot
orchestrator: the environment deduplication pass, the return-value logic of
the subprocess runner, the task scheduler with its one-shot readiness
signals, the readiness-wait primitive, the ephemeral-port allocator, and the
configuration-autofill algorithm.  External effects (the OS port oracle, the
random source, the filesystem, child-process exits, context cancellation)
are passed in as explicit parameters, so every definition is executable.
Go panics and Go error returns are both modelled by Option none where the
distinction does not matter for the statements below.
-/

namespace ArvadosBoot

/-! ### Environment model (dedupEnv, supervisor.go lines 326-341)

A Go environment entry is a string KEY=VALUE.  The key of an entry is the
part before the first equals sign; the Go code panics when
strings.Index(kv, "=") is smaller than 1, i.e. when there is no equals sign
at all or when it sits at index 0 (empty key). -/

/-- The key of an environment entry: the part of the string before the first
equals sign, provided that sign exists and is not the first character.
Mirrors the test in dedupEnv: strings.Index(kv, "=") returning an index
smaller than 1 is the panic case, here none. -/
def envKeyOf (kv : String) : Option String :=
  match kv.toList.findIdx? (fun c => c == '=') with
  | none => none
  | some 0 => none
  | some (n+1) => some (String.mk (kv.toList.take (n+1)))

/-- Worker for dedupEnv: saw is the set of keys already emitted.  An entry
whose key was already seen is skipped; an invalid entry is a panic (none);
otherwise the entry is kept, first occurrence first. -/
def dedupFrom (saw : List String) : List String → Option (List String)
  | [] => some []
  | kv :: rest =>
    match envKeyOf kv with
    | none => none
    | some k =>
      if k ∈ saw then dedupFrom saw rest
      else (dedupFrom (k :: saw) rest).map (fun out => kv :: out)

/-- dedupEnv (supervisor.go 326-341): remove all but the first occurrence of
each environment variable; panic (none) on an entry without a valid key. -/
def dedupEnv (input : List String) : Option (List String) :=
  dedupFrom [] input

/-- Boolean test: does entry kv bind key k. -/
def hasKey (k : String) (kv : String) : Bool :=
  envKeyOf kv == some k

/-! ### Process supervisor (RunProgram, supervisor.go lines 405-491) -/

/-- Environment handed to the child process (supervisor.go 450-452):
the caller-supplied extra entries, then the supervisor environment,
deduplicated with first occurrence winning. -/
def childEnv (extra environ : List String) : Option (List String) :=
  dedupEnv (extra ++ environ)

/-- The error returned by RunProgram, as a function of the start error
(cmd.Start, line 476), the value of ctx.Err() observed after cmd.Wait
returns (line 482), and the error from cmd.Wait itself (line 481).
Mirrors lines 476-490: a start failure is returned as is; otherwise, if the
context was cancelled, its cancellation error is returned; otherwise a wait
error is wrapped with the command line; otherwise nil. -/
def runProgramReturn (cmdline : String) (startErr ctxErr waitErr : Option String) :
    Option String :=
  match startErr with
  | some e => some e
  | none =>
    match ctxErr with
    | some e => some e
    | none =>
      match waitErr with
      | some e => some (cmdline ++ ": error: " ++ e)
      | none => none

/-! ### Task scheduler (Supervisor.run, supervisor.go lines 198-231)

Each task goroutine runs the task once; on error it calls fail (which
cancels the shared context unless it is already cancelled) and does not
close the readiness channel; on success it closes the channel.  The final
scheduler state after all task goroutines have finished is the fold of
these per-task effects, in any serialization order, over an initial state
whose cancellation flag records whether an external cancellation (OS signal
or explicit stop) was requested. -/

/-- Scheduler state: which readiness channels are closed, and whether the
shared context is cancelled. -/
structure SchedState where
  closed : List String
  canceled : Bool
deriving DecidableEq

/-- The fail callback (supervisor.go 204-210): if the context is already
cancelled do nothing, otherwise cancel it. -/
def failStep (st : SchedState) : SchedState :=
  if st.canceled then st else { st with canceled := true }

/-- Effect of one task goroutine finishing (supervisor.go 211-219): an
error triggers fail and skips the close; success closes the readiness
channel of the task. -/
def taskFinish (name : String) (result : Option String) (st : SchedState) : SchedState :=
  match result with
  | some _ => failStep st
  | none => { st with closed := name :: st.closed }

/-- Final scheduler state after all task goroutines have finished, given
the outcome of each task run (name, error) and whether an external
cancellation was requested at any point. -/
def schedFinal (ec : Bool) (oc : List (String × Option String)) : SchedState :=
  oc.foldl (fun st x => taskFinish x.1 x.2 st) { closed := [], canceled := ec }

/-- The message of the Go context cancellation error. -/
def ctxCanceledMsg : String := "context canceled"

/-- Result of the readiness-wait primitive: success, an error, or blocked
forever (neither channel close nor cancellation ever arrives). -/
inductive WaitRes where
  | ok : WaitRes
  | errRes : String → WaitRes
  | blocked : WaitRes
deriving DecidableEq

/-- Supervisor.wait (supervisor.go 233-249) against a settled state: for
each named task in order, a missing readiness-map entry is an immediate
error; a closed channel lets the loop proceed; otherwise a cancelled
context yields its error, and an uncancelled one blocks. -/
def waitModel (ready closed : List String) (canceled : Bool) : List String → WaitRes
  | [] => .ok
  | t :: ts =>
    if t ∈ ready then
      if t ∈ closed then waitModel ready closed canceled ts
      else if canceled then .errRes ctxCanceledMsg
      else .blocked
    else .errRes ("no such task: " ++ t)

/-- Outcome of the top-level Supervisor.run: it either blocks forever or
returns an optional error. -/
inductive RunOutcome where
  | blocked : RunOutcome
  | returns : Option String → RunOutcome
deriving DecidableEq

/-- The tail of Supervisor.run (supervisor.go 221-230), given the outcome
of every task and whether external cancellation was requested: run waits on
every task (returning a wait error as is, line 221-224), then blocks on
ctx.Done() and returns ctx.Err(); reaching the return at line 230 requires
the context to be cancelled, so the value returned there is the
cancellation error. -/
def runModel (oc : List (String × Option String)) (ec : Bool) : RunOutcome :=
  let names := oc.map Prod.fst
  let st := schedFinal ec oc
  match waitModel names st.closed st.canceled names with
  | .errRes e => .returns (some e)
  | .blocked => .blocked
  | .ok => if st.canceled then .returns (some ctxCanceledMsg) else .blocked

/-! ### Port allocation (nextPort / availablePort, supervisor.go 498-511, 673-684)

availablePort asks the OS for a free ephemeral port; the answers of the OS
across the run are an oracle stream indexed by the number of availablePort
calls made so far.  nextPort retries while the offered port is already in
the in-process used set, and records the chosen port in the set before
returning it.  The fuel bounds the number of retries; exhausting it, like a
failing availablePort, is a failure (none). -/

/-- Port-allocation state: number of availablePort calls made so far, and
the set of ports already handed out in this run. -/
structure PortSt where
  k : Nat
  used : List String
deriving DecidableEq

/-- nextPort (supervisor.go 499-511) against the OS oracle osp. -/
def nextPort (osp : Nat → String) : Nat → PortSt → Option (String × PortSt)
  | 0, _ => none
  | fuel+1, st =>
    if osp st.k ∈ st.used then nextPort osp fuel { k := st.k + 1, used := st.used }
    else some (osp st.k, { k := st.k + 1, used := osp st.k :: st.used })

/-- A sequence of n nextPort allocations within one run. -/
def allocPorts (osp : Nat → String) (fuel : Nat) : Nat → PortSt → Option (List String × PortSt)
  | 0, st => some ([], st)
  | n+1, st => do
    let (p, st1) ← nextPort osp fuel st
    let (ps, st2) ← allocPorts osp fuel n st1
    some (p :: ps, st2)

/-! ### Configuration autofill data model (supervisor.go 493-619)

The cluster configuration record, restricted to the fields autofillConfig
touches.  Go URL values carry a scheme and a host (host:port); an unset URL
has an empty host.  Maps keyed by URL are modelled as lists; volume and
Postgres maps as association lists. -/

/-- A Go arvados.URL value: scheme and host (including port). -/
structure GoURL where
  scheme : String
  host : String
deriving DecidableEq

/-- One arvados.Service: an external URL and a set of internal URLs. -/
structure ServiceCfg where
  externalURL : GoURL
  internalURLs : List GoURL
deriving DecidableEq

/-- One storage volume: driver name, directory root (the Root driver
parameter), and the keepstore internal URL granted access. -/
structure Volume where
  driver : String
  root : String
  accessHost : GoURL
deriving DecidableEq

/-- The cluster configuration fields read or written by autofillConfig.
RailsSessionSecretToken lives under API and BlobSigningKey under
Collections in the Go struct; the nesting is flattened here. -/
structure Cluster where
  clusterID : String
  controller : ServiceCfg
  dispatchCloud : ServiceCfg
  gitHTTP : ServiceCfg
  health : ServiceCfg
  keepproxy : ServiceCfg
  keepstore : ServiceCfg
  railsAPI : ServiceCfg
  webDAV : ServiceCfg
  webDAVDownload : ServiceCfg
  websocket : ServiceCfg
  workbench1 : ServiceCfg
  systemRootToken : String
  managementToken : String
  railsSessionSecretToken : String
  blobSigningKey : String
  dispatchPrivateKey : String
  tlsInsecure : Bool
  volumes : List (String × Volume)
  postgresConn : List (String × String)
deriving DecidableEq

/-- A service with nothing configured. -/
def emptySvc : ServiceCfg := { externalURL := ⟨"", ""⟩, internalURLs := [] }

/-- A configuration that is empty except for the cluster identifier. -/
def emptyClusterWithID (cid : String) : Cluster :=
  { clusterID := cid, controller := emptySvc, dispatchCloud := emptySvc,
    gitHTTP := emptySvc, health := emptySvc, keepproxy := emptySvc,
    keepstore := emptySvc, railsAPI := emptySvc, webDAV := emptySvc,
    webDAVDownload := emptySvc, websocket := emptySvc, workbench1 := emptySvc,
    systemRootToken := "", managementToken := "", railsSessionSecretToken := "",
    blobSigningKey := "", dispatchPrivateKey := "", tlsInsecure := false,
    volumes := [], postgresConn := [] }

/-- Result of an os.Stat call on a directory. -/
inductive StatRes where
  | okRes : StatRes
  | notExist : StatRes
  | otherErr : String → StatRes
deriving DecidableEq

/-- Supervisor fields and external oracles consumed by autofillConfig:
rands gives the byte stream of each crypto-rand read (randOk false means
the random source fails), osp is the OS free-port oracle, statDir and
mkdirRes model the filesystem calls of the volume loop, dispatchKeySrc the
content of the development dispatch key file (none when unreadable). -/
structure BootParams where
  listenHost : String
  controllerAddr : String
  clusterType : String
  ownTemporaryDatabase : Bool
  tempdir : String
  dispatchKeySrc : Option String
  randOk : Bool
  rands : Nat → Nat → Nat
  osp : Nat → String
  statDir : String → StatRes
  mkdirRes : String → Option String

/-- net.SplitHostPort restricted to the addresses the supervisor uses:
split at the last colon; no colon is an error.  Bracketed IPv6 literals are
not modelled. -/
def splitHostPort (s : String) : Option (String × String) :=
  match s.toList.reverse.findIdx? (fun c => c == ':') with
  | none => none
  | some ri =>
    let n := s.toList.length - 1 - ri
    some (String.mk (s.toList.take n), String.mk (s.toList.drop (n+1)))

/-- net.JoinHostPort for unbracketed hosts. -/
def joinHostPort (h p : String) : String := h ++ ":" ++ p

/-! ### randomHexString (supervisor.go 634-641) -/

/-- One hex digit, lowercase, as printed by the Go %x verb. -/
def hexDigitChar (n : Nat) : Char :=
  if n < 10 then Char.ofNat (48 + n) else Char.ofNat (87 + n)

/-- Hex encoding of a byte list, two digits per byte. -/
def hexOfBytes : List Nat → List Char
  | [] => []
  | b :: bs => hexDigitChar (b % 256 / 16) :: hexDigitChar (b % 16) :: hexOfBytes bs

/-- randomHexString: read chars/2 bytes from the random source and print
them in hex; a failing random source is a panic (none). -/
def randomHexString (chars : Nat) (ok : Bool) (bytes : Nat → Nat) : Option String :=
  if ok then some (String.mk (hexOfBytes ((List.range (chars / 2)).map bytes)))
  else none

/-- Is c one of the sixteen lowercase hexadecimal digit characters. -/
def isHexChar (c : Char) : Bool :=
  (48 ≤ c.toNat && c.toNat ≤ 57) || (97 ≤ c.toNat && c.toNat ≤ 102)

/-- A well-formed generated secret: 64 characters, all hex digits. -/
def isHex64 (s : String) : Prop :=
  s.length = 64 ∧ ∀ c ∈ s.toList, isHexChar c = true

/-! ### The autofill stages (supervisor.go 493-619), in source order -/

/-- The port of the controller external URL (520-522): the address port,
unless it is 0, in which case a fresh port on the effective host. -/
def portFor (P : BootParams) (fuel : Nat) (p0 : String) (st : PortSt) :
    Option (String × PortSt) :=
  if p0 = "0" then nextPort P.osp fuel st else some (p0, st)

/-- Stage 1 (512-524): default the controller external URL from the
supervisor controller address, choosing a fresh port when the address port
is 0 and defaulting an empty address host to the listen host. -/
def stControllerExt (P : BootParams) (fuel : Nat) (c : Cluster) (st : PortSt) :
    Option (Cluster × PortSt) :=
  if c.controller.externalURL.host = "" then do
    let hp ← splitHostPort P.controllerAddr
    let pst ← portFor P fuel hp.2 st
    some ({ c with
              controller :=
                { externalURL :=
                    ⟨"https",
                     joinHostPort (if hp.1 = "" then P.listenHost else hp.1) pst.1⟩
                  internalURLs := c.controller.internalURLs } }, pst.2)
  else some (c, st)

/-- Which external URL defaulting a service in the loop at 525-558 gets:
an https URL, a wss URL, or none. -/
inductive ExtKind where
  | httpsExt : ExtKind
  | wssExt : ExtKind
  | noExt : ExtKind
deriving DecidableEq

/-- The external-URL part of the service loop body (541-552): default an
unset external URL according to the kind of the service. -/
def extFor (osp : Nat → String) (fuel : Nat) (listenHost : String)
    (kind : ExtKind) (svc : ServiceCfg) (st : PortSt) : Option (GoURL × PortSt) :=
  if svc.externalURL.host = "" then
    match kind with
    | .httpsExt => (nextPort osp fuel st).map
        (fun x => ((⟨"https", joinHostPort listenHost x.1⟩ : GoURL), x.2))
    | .wssExt => (nextPort osp fuel st).map
        (fun x => ((⟨"wss", joinHostPort listenHost x.1⟩ : GoURL), x.2))
    | .noExt => some (svc.externalURL, st)
  else some (svc.externalURL, st)

/-- The internal-URL part of the service loop body (553-557): a service
without internal URLs gets exactly one http internal URL on a fresh port. -/
def intsFor (osp : Nat → String) (fuel : Nat) (listenHost : String)
    (svc : ServiceCfg) (st : PortSt) : Option (List GoURL × PortSt) :=
  if svc.internalURLs.isEmpty then
    (nextPort osp fuel st).map
      (fun x => ([(⟨"http", joinHostPort listenHost x.1⟩ : GoURL)], x.2))
  else some (svc.internalURLs, st)

/-- Body of the service loop (541-557) for one service. -/
def fillService (osp : Nat → String) (fuel : Nat) (listenHost : String)
    (kind : ExtKind) (svc : ServiceCfg) (st : PortSt) : Option (ServiceCfg × PortSt) := do
  let ext ← extFor osp fuel listenHost kind svc st
  let ints ← intsFor osp fuel listenHost svc ext.2
  some (({ externalURL := ext.1, internalURLs := ints.1 } : ServiceCfg), ints.2)

/-- The dispatch-cloud step of the service loop (538-540): in a test
cluster the service is skipped entirely, otherwise treated like the other
services without external URL defaulting. -/
def fillDispatchCloud (P : BootParams) (fuel : Nat) (svc : ServiceCfg) (st : PortSt) :
    Option (ServiceCfg × PortSt) :=
  if P.clusterType = "test" then some (svc, st)
  else fillService P.osp fuel P.listenHost .noExt svc st

/-- Stage 2 (525-558): the loop over the eleven services, in source order;
in a test cluster the dispatch-cloud service is skipped entirely. -/
def stServices (P : BootParams) (fuel : Nat) (c : Cluster) (st : PortSt) :
    Option (Cluster × PortSt) := do
  let (sController, st) ← fillService P.osp fuel P.listenHost .httpsExt c.controller st
  let (sDispatchCloud, st) ← fillDispatchCloud P fuel c.dispatchCloud st
  let (sGitHTTP, st) ← fillService P.osp fuel P.listenHost .httpsExt c.gitHTTP st
  let (sHealth, st) ← fillService P.osp fuel P.listenHost .noExt c.health st
  let (sKeepproxy, st) ← fillService P.osp fuel P.listenHost .httpsExt c.keepproxy st
  let (sKeepstore, st) ← fillService P.osp fuel P.listenHost .noExt c.keepstore st
  let (sRailsAPI, st) ← fillService P.osp fuel P.listenHost .noExt c.railsAPI st
  let (sWebDAV, st) ← fillService P.osp fuel P.listenHost .httpsExt c.webDAV st
  let (sWebDAVDownload, st) ← fillService P.osp fuel P.listenHost .httpsExt c.webDAVDownload st
  let (sWebsocket, st) ← fillService P.osp fuel P.listenHost .wssExt c.websocket st
  let (sWorkbench1, st) ← fillService P.osp fuel P.listenHost .httpsExt c.workbench1 st
  some ({ c with
            controller := sController
            dispatchCloud := sDispatchCloud
            gitHTTP := sGitHTTP
            health := sHealth
            keepproxy := sKeepproxy
            keepstore := sKeepstore
            railsAPI := sRailsAPI
            webDAV := sWebDAV
            webDAVDownload := sWebDAVDownload
            websocket := sWebsocket
            workbench1 := sWorkbench1 }, st)

/-- One secret field of the block at 559-570: an empty field is generated
from the random source, a non-empty one kept. -/
def fillSecret (ok : Bool) (bytes : Nat → Nat) (v : String) : Option String :=
  if v = "" then randomHexString 64 ok bytes else some v

/-- Stage 3 (559-570): generate each of the four secrets that is empty.
Each field gets its own 32-byte read from the random source. -/
def stSecrets (P : BootParams) (c : Cluster) : Option Cluster := do
  let srt ← fillSecret P.randOk (P.rands 0) c.systemRootToken
  let mt ← fillSecret P.randOk (P.rands 1) c.managementToken
  let rst ← fillSecret P.randOk (P.rands 2) c.railsSessionSecretToken
  let bsk ← fillSecret P.randOk (P.rands 3) c.blobSigningKey
  some { c with
           systemRootToken := srt
           managementToken := mt
           railsSessionSecretToken := rst
           blobSigningKey := bsk }

/-- Stage 4 (571-577): outside production, read the development dispatch
private key from the source tree when none is configured. -/
def stDispatchKey (P : BootParams) (c : Cluster) : Option Cluster :=
  if P.clusterType ≠ "production" ∧ c.dispatchPrivateKey = "" then
    match P.dispatchKeySrc with
    | none => none
    | some key => some { c with dispatchPrivateKey := key }
  else some c

/-- Stage 5 (578-580): outside production, relax TLS verification. -/
def stTLS (P : BootParams) (c : Cluster) : Cluster :=
  if P.clusterType ≠ "production" then { c with tlsInsecure := true } else c

/-- Go map insert on a URL-keyed set, as a list: appending is a no-op when
the key is already present. -/
def insertURL (urls : List GoURL) (u : GoURL) : List GoURL :=
  if u ∈ urls then urls else urls ++ [u]

/-- The %015d verb: decimal with zero padding to width 15. -/
def pad15 (n : Nat) : String :=
  let s := toString n
  String.mk (List.replicate (15 - s.length) '0') ++ s

/-- The directory check of the volume loop (591-596): a directory whose
stat succeeds is accepted as is; a missing one is created; any other stat
error, or a mkdir error, aborts. -/
def ensureDir (statDir : String → StatRes) (mkdirRes : String → Option String)
    (datadir : String) : Option Unit :=
  match statDir (datadir ++ "/.") with
  | .okRes => some ()
  | .otherErr _ => none
  | .notExist =>
    match mkdirRes datadir with
    | none => some ()
    | some _ => none

/-- The volume loop of the test-mode block (585-604): one directory-backed
volume per keepstore internal URL, numbered from the current volume count;
the backing directory is created unless a stat shows it already exists, and
any other stat error or a mkdir error aborts autofill. -/
def mkVolumes (statDir : String → StatRes) (mkdirRes : String → Option String)
    (clusterID tempdir : String) : List GoURL → Nat → Option (List (String × Volume))
  | [], _ => some []
  | url :: rest, volnum =>
    (ensureDir statDir mkdirRes (tempdir ++ "/keep" ++ toString volnum ++ ".data")).bind
      (fun _ => (mkVolumes statDir mkdirRes clusterID tempdir rest (volnum + 1)).map
        (fun vols => (clusterID ++ "-nyw5e-" ++ pad15 volnum,
          ({ driver := "Directory",
             root := tempdir ++ "/keep" ++ toString volnum ++ ".data",
             accessHost := url } : Volume)) :: vols))

/-- Stage 6 (581-605): in a test cluster, add a second keepstore internal
URL on a fresh port and rebuild the volume set with one directory-backed
volume per keepstore internal URL. -/
def stTestExtras (P : BootParams) (fuel : Nat) (c : Cluster) (st : PortSt) :
    Option (Cluster × PortSt) :=
  if P.clusterType = "test" then do
    let (p, st1) ← nextPort P.osp fuel st
    let urls := insertURL c.keepstore.internalURLs ⟨"http", joinHostPort P.listenHost p⟩
    let vols ← mkVolumes P.statDir P.mkdirRes c.clusterID P.tempdir urls 0
    some ({ c with
              keepstore := { externalURL := c.keepstore.externalURL, internalURLs := urls }
              volumes := vols }, st1)
  else some (c, st)

/-- Stage 7 (606-615): when the supervisor owns a temporary database,
point the Postgres connection at a throwaway local arvados_test instance
on a fresh port. -/
def stPostgres (P : BootParams) (fuel : Nat) (c : Cluster) (st : PortSt) :
    Option (Cluster × PortSt) :=
  if P.ownTemporaryDatabase then do
    let (p, st1) ← nextPort P.osp fuel st
    some ({ c with postgresConn :=
        [("client_encoding", "utf8"), ("host", "localhost"), ("port", p),
         ("dbname", "arvados_test"), ("user", "arvados"),
         ("password", "insecure_arvados_test")] }, st1)
  else some (c, st)

/-- autofillConfig (supervisor.go 493-619): the stages in source order,
threading the used-port state, starting from an empty used set. -/
def autofillConfig (P : BootParams) (fuel : Nat) (c : Cluster) : Option Cluster := do
  let (c1, st1) ← stControllerExt P fuel c { k := 0, used := [] }
  let (c2, st2) ← stServices P fuel c1 st1
  let c3 ← stSecrets P c2
  let c4 ← stDispatchKey P c3
  let c5 := stTLS P c4
  let (c6, st3) ← stTestExtras P fuel c5 st2
  let (c7, _) ← stPostgres P fuel c6 st3
  some c7

/-- Concrete supervisor parameters used to exercise the model: a test
cluster with its own temporary database, a deterministic OS port oracle, a
deterministic random source, and a filesystem without the volume
directories. -/
def testParams : BootParams :=
  { listenHost := "127.0.0.1", controllerAddr := ":0", clusterType := "test",
    ownTemporaryDatabase := true, tempdir := "/tmp/boot", dispatchKeySrc := some "KEY",
    randOk := true, rands := fun i j => i * 31 + j, osp := fun n => toString (33000 + n),
    statDir := fun _ => StatRes.notExist, mkdirRes := fun _ => none }

/-- The configuration produced by autofill at the concrete parameters from
the configuration that is empty except for the cluster identifier. -/
def testFilled : Cluster :=
  (autofillConfig testParams 30 (emptyClusterWithID "zzzzz")).getD (emptyClusterWithID "")

/-! ### Helper lemmas -/

theorem isSome_map (f : α → β) (x : Option α) : (x.map f).isSome = x.isSome := by
  cases x <;> rfl

theorem envKeyOf_isSome_iff (kv : String) :
    (envKeyOf kv).isSome ↔ ∃ n, kv.toList.findIdx? (fun c => c == '=') = some (n+1) := by
  unfold envKeyOf
  cases h : kv.toList.findIdx? (fun c => c == '=') with
  | none => simp
  | some m => cases m with
    | zero => simp
    | succ n => simp

theorem hasKey_true_iff (k kv : String) : hasKey k kv = true ↔ envKeyOf kv = some k := by
  simp [hasKey]

theorem hasKey_false_iff (k kv : String) : hasKey k kv = false ↔ envKeyOf kv ≠ some k := by
  simp [hasKey]

theorem dedupFrom_isSome_iff : ∀ (l saw : List String),
    (dedupFrom saw l).isSome ↔ ∀ kv ∈ l, (envKeyOf kv).isSome := by
  intro l
  induction l with
  | nil => intro saw; simp [dedupFrom]
  | cons kv rest ih =>
    intro saw
    cases hk : envKeyOf kv with
    | none => simp [dedupFrom, hk]
    | some k =>
      by_cases hs : k ∈ saw
      · simp [dedupFrom, hk, hs, ih, Option.isSome_some]
      · simp [dedupFrom, hk, hs, isSome_map, ih, Option.isSome_some]

theorem dedupFrom_cons_none {kv : String} (saw rest : List String)
    (hk : envKeyOf kv = none) : dedupFrom saw (kv :: rest) = none := by
  rw [dedupFrom, hk]

theorem dedupFrom_cons_some {kv k : String} (saw rest : List String)
    (hk : envKeyOf kv = some k) :
    dedupFrom saw (kv :: rest) =
      if k ∈ saw then dedupFrom saw rest
      else (dedupFrom (k :: saw) rest).map (fun out => kv :: out) := by
  rw [dedupFrom, hk]

theorem dedupFrom_idem : ∀ (l saw out : List String),
    dedupFrom saw l = some out → dedupFrom saw out = some out := by
  intro l
  induction l with
  | nil =>
    intro saw out h
    simp only [dedupFrom, Option.some.injEq] at h
    subst h
    rfl
  | cons kv rest ih =>
    intro saw out h
    cases hk : envKeyOf kv with
    | none => rw [dedupFrom_cons_none saw rest hk] at h; cases h
    | some k =>
      rw [dedupFrom_cons_some saw rest hk] at h
      by_cases hs : k ∈ saw
      · rw [if_pos hs] at h
        exact ih saw out h
      · rw [if_neg hs] at h
        cases hrest : dedupFrom (k :: saw) rest with
        | none => rw [hrest] at h; cases h
        | some out1 =>
          rw [hrest, Option.map_some'] at h
          cases h
          rw [dedupFrom_cons_some saw out1 hk, if_neg hs, ih (k :: saw) out1 hrest,
            Option.map_some']

theorem dedupFrom_sublist : ∀ (l saw out : List String),
    dedupFrom saw l = some out → out.Sublist l := by
  intro l
  induction l with
  | nil =>
    intro saw out h
    simp only [dedupFrom, Option.some.injEq] at h
    subst h
    exact List.Sublist.refl []
  | cons kv rest ih =>
    intro saw out h
    cases hk : envKeyOf kv with
    | none => rw [dedupFrom_cons_none saw rest hk] at h; cases h
    | some k =>
      rw [dedupFrom_cons_some saw rest hk] at h
      by_cases hs : k ∈ saw
      · rw [if_pos hs] at h
        exact (ih saw out h).cons kv
      · rw [if_neg hs] at h
        cases hrest : dedupFrom (k :: saw) rest with
        | none => rw [hrest] at h; cases h
        | some out1 =>
          rw [hrest, Option.map_some'] at h
          cases h
          exact (ih (k :: saw) out1 hrest).cons₂ kv

theorem dedupFrom_filter (k : String) : ∀ (l saw out : List String),
    dedupFrom saw l = some out →
    (k ∈ saw → out.filter (hasKey k) = []) ∧
    (k ∉ saw → out.filter (hasKey k) = (l.find? (hasKey k)).toList) := by
  intro l
  induction l with
  | nil =>
    intro saw out h
    simp only [dedupFrom, Option.some.injEq] at h
    subst h
    simp
  | cons kv rest ih =>
    intro saw out h
    cases hk : envKeyOf kv with
    | none => rw [dedupFrom_cons_none saw rest hk] at h; cases h
    | some k1 =>
      rw [dedupFrom_cons_some saw rest hk] at h
      by_cases hs : k1 ∈ saw
      · rw [if_pos hs] at h
        refine ⟨fun hin => (ih saw out h).1 hin, fun hout => ?_⟩
        have hne : k1 ≠ k := fun he => hout (he ▸ hs)
        have hkey : hasKey k kv = false := by
          rw [hasKey_false_iff, hk]
          intro hc
          exact hne (Option.some.injEq .. ▸ hc)
        rw [List.find?_cons_of_neg _ (by simp [hkey])]
        exact (ih saw out h).2 hout
      · rw [if_neg hs] at h
        cases hrest : dedupFrom (k1 :: saw) rest with
        | none => rw [hrest] at h; cases h
        | some out1 =>
          rw [hrest, Option.map_some'] at h
          cases h
          constructor
          · intro hin
            have hne : k1 ≠ k := fun he => hs (he ▸ hin)
            have hkey : hasKey k kv = false := by
              rw [hasKey_false_iff, hk]
              intro hc
              exact hne (Option.some.injEq .. ▸ hc)
            rw [List.filter_cons_of_neg (by simp [hkey])]
            exact (ih (k1 :: saw) out1 hrest).1 (List.mem_cons_of_mem _ hin)
          · intro hout
            by_cases hkk : k1 = k
            · subst hkk
              have hkey : hasKey k1 kv = true := by rw [hasKey_true_iff]; exact hk
              rw [List.filter_cons_of_pos (by simp [hkey]),
                  List.find?_cons_of_pos _ hkey,
                  (ih (k1 :: saw) out1 hrest).1 (List.mem_cons_self k1 saw)]
              rfl
            · have hkey : hasKey k kv = false := by
                rw [hasKey_false_iff, hk]
                intro hc
                exact hkk (Option.some.injEq .. ▸ hc)
              rw [List.filter_cons_of_neg (by simp [hkey]),
                  List.find?_cons_of_neg _ (by simp [hkey])]
              refine (ih (k1 :: saw) out1 hrest).2 (fun hmem => ?_)
              rcases List.mem_cons.mp hmem with h1 | h1
              · exact hkk h1.symm
              · exact hout h1

theorem find?_append_some {α : Type} (p : α → Bool) :
    ∀ (l1 l2 : List α) (x : α), l1.find? p = some x → (l1 ++ l2).find? p = some x := by
  intro l1
  induction l1 with
  | nil => intro l2 x h; cases h
  | cons a t ih =>
    intro l2 x h
    cases hp : p a with
    | true =>
      rw [List.find?_cons_of_pos _ hp] at h
      rw [List.cons_append, List.find?_cons_of_pos _ hp]
      exact h
    | false =>
      rw [List.find?_cons_of_neg _ (by simp [hp])] at h
      rw [List.cons_append, List.find?_cons_of_neg _ (by simp [hp])]
      exact ih l2 x h

theorem nextPort_sound (osp : Nat → String) : ∀ (fuel : Nat) (st : PortSt) (p : String)
    (st' : PortSt), nextPort osp fuel st = some (p, st') →
    p ∉ st.used ∧ st'.used = p :: st.used := by
  intro fuel
  induction fuel with
  | zero => intro st p st' h; cases h
  | succ n ih =>
    intro st p st' h
    rw [nextPort] at h
    by_cases hc : osp st.k ∈ st.used
    · rw [if_pos hc] at h
      have hih := ih { k := st.k + 1, used := st.used } p st' h
      exact hih
    · rw [if_neg hc] at h
      simp only [Option.some.injEq, Prod.mk.injEq] at h
      obtain ⟨hp, hst⟩ := h
      subst hp
      subst hst
      exact ⟨hc, rfl⟩

theorem allocPorts_sound (osp : Nat → String) (fuel : Nat) : ∀ (n : Nat) (st : PortSt)
    (ps : List String) (st' : PortSt), allocPorts osp fuel n st = some (ps, st') →
    (∀ p ∈ ps, p ∈ st'.used ∧ p ∉ st.used) ∧ ps.Nodup ∧ st.used ⊆ st'.used := by
  intro n
  induction n with
  | zero =>
    intro st ps st' h
    simp only [allocPorts, Option.some.injEq, Prod.mk.injEq] at h
    obtain ⟨h1, h2⟩ := h
    subst h1
    subst h2
    simp
  | succ m ih =>
    intro st ps st' h
    simp only [allocPorts, Option.bind_eq_bind, Option.bind_eq_some, Option.some.injEq] at h
    obtain ⟨⟨p, st1⟩, h1, ⟨ps1, st2⟩, h2, h3⟩ := h
    have hp := nextPort_sound osp fuel st p st1 h1
    have hrec := ih st1 ps1 st2 h2
    have hmono : st.used ⊆ st1.used := by
      rw [hp.2]
      exact List.subset_cons_self p st.used
    cases h3
    refine ⟨?_, ?_, hmono.trans hrec.2.2⟩
    · intro q hq
      rcases List.mem_cons.mp hq with hq | hq
      · subst hq
        exact ⟨hrec.2.2 (hp.2 ▸ List.mem_cons_self q st.used), hp.1⟩
      · refine ⟨(hrec.1 q hq).1, fun hbad => ?_⟩
        exact (hrec.1 q hq).2 (hp.2 ▸ List.mem_cons_of_mem p hbad)
    · refine List.nodup_cons.mpr ⟨fun hbad => ?_, hrec.2.1⟩
      exact (hrec.1 p hbad).2 (hp.2 ▸ List.mem_cons_self p st.used)

theorem failStep_closed (st : SchedState) : (failStep st).closed = st.closed := by
  unfold failStep
  split <;> rfl

theorem failStep_canceled (st : SchedState) : (failStep st).canceled = true := by
  unfold failStep
  split
  · assumption
  · rfl

theorem sched_foldl_closed : ∀ (oc : List (String × Option String)) (st : SchedState),
    (oc.foldl (fun s x => taskFinish x.1 x.2 s) st).closed
      = ((oc.filter (fun x => x.2.isNone)).map Prod.fst).reverse ++ st.closed := by
  intro oc
  induction oc with
  | nil => intro st; simp
  | cons x rest ih =>
    intro st
    rw [List.foldl_cons]
    cases hx : x.2 with
    | none =>
      rw [ih]
      simp only [taskFinish, hx, List.filter_cons, hx, Option.isNone_none, List.map_cons,
        List.reverse_cons, List.append_assoc, List.singleton_append]
      simp [hx]
    | some e =>
      rw [ih]
      simp only [taskFinish, hx, failStep_closed, List.filter_cons, hx, Option.isNone_some]
      simp [hx, taskFinish, failStep_closed]

theorem sched_foldl_canceled : ∀ (oc : List (String × Option String)) (st : SchedState),
    (oc.foldl (fun s x => taskFinish x.1 x.2 s) st).canceled
      = (st.canceled || oc.any (fun x => x.2.isSome)) := by
  intro oc
  induction oc with
  | nil => intro st; simp
  | cons x rest ih =>
    intro st
    rw [List.foldl_cons]
    cases hx : x.2 with
    | none =>
      rw [ih]
      simp [taskFinish, hx]
    | some e =>
      rw [ih]
      simp [taskFinish, hx, failStep_canceled]

theorem schedFinal_closed (ec : Bool) (oc : List (String × Option String)) :
    (schedFinal ec oc).closed = ((oc.filter (fun x => x.2.isNone)).map Prod.fst).reverse := by
  unfold schedFinal
  rw [sched_foldl_closed]
  simp

theorem schedFinal_canceled (ec : Bool) (oc : List (String × Option String)) :
    (schedFinal ec oc).canceled = (ec || oc.any (fun x => x.2.isSome)) := by
  unfold schedFinal
  rw [sched_foldl_canceled]

theorem nodupKeys_snd_eq {α β : Type} [DecidableEq α] :
    ∀ (oc : List (α × β)) (t : α) (a b : β), (oc.map Prod.fst).Nodup →
    (t, a) ∈ oc → (t, b) ∈ oc → a = b := by
  intro oc
  induction oc with
  | nil => intro t a b _ ha; cases ha
  | cons y rest ih =>
    intro t a b hnd ha hb
    rw [List.map_cons, List.nodup_cons] at hnd
    rcases List.mem_cons.mp ha with ha | ha <;> rcases List.mem_cons.mp hb with hb | hb
    · rw [← ha] at hb
      exact (Prod.mk.injEq .. ▸ hb).2.symm
    · exfalso
      apply hnd.1
      rw [← ha]
      exact List.mem_map.mpr ⟨(t, b), hb, rfl⟩
    · exfalso
      apply hnd.1
      rw [← hb]
      exact List.mem_map.mpr ⟨(t, a), ha, rfl⟩
    · exact ih t a b hnd.2 ha hb

theorem schedFinal_mem_closed_iff (ec : Bool) (oc : List (String × Option String))
    (t : String) : t ∈ (schedFinal ec oc).closed ↔ ∃ x ∈ oc, x.1 = t ∧ x.2 = none := by
  rw [schedFinal_closed, List.mem_reverse, List.mem_map]
  constructor
  · rintro ⟨x, hx, hxt⟩
    rw [List.mem_filter] at hx
    exact ⟨x, hx.1, hxt, Option.isNone_iff_eq_none.mp hx.2⟩
  · rintro ⟨x, hx, hxt, hxn⟩
    exact ⟨x, List.mem_filter.mpr ⟨hx, by rw [hxn]; rfl⟩, hxt⟩

theorem waitModel_all_closed (ready closed : List String) (canceled : Bool) :
    ∀ ts : List String, (∀ t ∈ ts, t ∈ ready ∧ t ∈ closed) →
    waitModel ready closed canceled ts = .ok := by
  intro ts
  induction ts with
  | nil => intro _; rfl
  | cons t rest ih =>
    intro h
    have ht := h t (List.mem_cons_self t rest)
    rw [waitModel, if_pos ht.1, if_pos ht.2]
    exact ih (fun u hu => h u (List.mem_cons_of_mem t hu))

theorem waitModel_canceled_ne_blocked (ready closed : List String) :
    ∀ ts : List String, waitModel ready closed true ts ≠ .blocked := by
  intro ts
  induction ts with
  | nil => intro h; cases h
  | cons t rest ih =>
    rw [waitModel]
    by_cases h1 : t ∈ ready
    · rw [if_pos h1]
      by_cases h2 : t ∈ closed
      · rw [if_pos h2]
        exact ih
      · rw [if_neg h2, if_pos rfl]
        intro h
        cases h
    · rw [if_neg h1]
      intro h
      cases h

/-! ### Claim theorems -/

/-- Claim C1: for every RunProgram invocation whose child started (no start
error), if the shared context is cancelled while the child runs — so
ctx.Err() is non-nil when checked after cmd.Wait — the returned error is
the cancellation error itself, regardless of the exit error the terminated
child produced. -/
theorem runProgram_cancel_returns_ctx_error :
    ∀ (cmdline : String) (waitErr : Option String) (e : String),
      runProgramReturn cmdline none (some e) waitErr = some e := by
  intro cmdline waitErr e
  rfl

/-- Claim C10: the readiness-wait primitive, reaching a task that has no
entry in the readiness map, returns a no-such-task error immediately, for
every state of the other signals and of the context, instead of blocking
or waiting on the missing signal. -/
theorem wait_missing_task_errors :
    ∀ (ready closed : List String) (canceled : Bool) (t : String) (ts : List String),
      t ∉ ready →
      waitModel ready closed canceled (t :: ts) = .errRes ("no such task: " ++ t) := by
  intro ready closed canceled t ts ht
  rw [waitModel, if_neg ht]

/-- Witness for C10 at a concrete state. -/
theorem wait_missing_task_errors_witness :
    waitModel ["a"] [] false ["b"] = .errRes ("no such task: " ++ "b") :=
  wait_missing_task_errors ["a"] [] false "b" [] (by decide)

/-- Claim C6: dedupEnv is idempotent, keeps exactly the first entry of each
key (the entries of the output with a given key are exactly the first input
entry with that key), preserves the relative order of kept entries (the
output is a sublist of the input), and maps the two-entry example to its
first entry. -/
theorem dedupEnv_idempotent_first_wins :
    (∀ l out, dedupEnv l = some out → dedupEnv out = some out) ∧
    (∀ l out k, dedupEnv l = some out →
      out.filter (hasKey k) = (l.find? (hasKey k)).toList) ∧
    (∀ l out, dedupEnv l = some out → out.Sublist l) ∧
    dedupEnv ["A=1", "A=2"] = some ["A=1"] := by
  refine ⟨fun l out h => dedupFrom_idem l [] out h,
          fun l out k h => (dedupFrom_filter k l [] out h).2 (by simp),
          fun l out h => dedupFrom_sublist l [] out h,
          by decide⟩

/-- Witness for C6 at a concrete list. -/
theorem dedupEnv_idempotent_first_wins_witness :
    dedupEnv ["A=1", "B=2"] = some ["A=1", "B=2"] :=
  dedupEnv_idempotent_first_wins.1 ["A=1", "A=2", "B=2"] ["A=1", "B=2"] (by decide)

/-- Claim C7 counterexample: the entry "=1" contains an equals separator,
yet dedupEnv panics on it (the Go code panics whenever the first equals
sign sits at an index smaller than 1), refuting that dedupEnv returns
normally on every list whose entries all contain an equals sign. -/
theorem dedupEnv_panics_despite_separator :
    ("=1".toList.contains '=' = true) ∧ dedupEnv ["=1"] = none := by
  decide

/-- Claim C7 amended: dedupEnv panics exactly when some entry has no equals
sign at a positive index, i.e. it returns normally iff every entry has its
first equals sign at index at least 1 (so entries lacking the separator,
and entries with an empty key such as "=1", both panic). -/
theorem dedupEnv_returns_iff_keys_wellformed :
    ∀ l : List String, (dedupEnv l).isSome ↔
      ∀ kv ∈ l, ∃ n, kv.toList.findIdx? (fun c => c == '=') = some (n+1) := by
  intro l
  rw [dedupEnv, dedupFrom_isSome_iff]
  constructor
  · intro h kv hkv
    exact (envKeyOf_isSome_iff kv).mp (h kv hkv)
  · intro h kv hkv
    exact (envKeyOf_isSome_iff kv).mpr (h kv hkv)

/-- Witness for amended C7 at a concrete list. -/
theorem dedupEnv_returns_iff_keys_wellformed_witness :
    (dedupEnv ["A=1"]).isSome :=
  (dedupEnv_returns_iff_keys_wellformed ["A=1"]).mpr
    (fun kv hkv => by
      rw [List.mem_singleton] at hkv
      subst hkv
      exact ⟨0, by decide⟩)

/-- Claim C9: the child environment is the extra entries followed by the
inherited ones, deduplicated first-wins; hence for every key bound by the
extra entries, the child environment binds that key exactly to the first
extra entry, never to an inherited one. -/
theorem childEnv_extra_overrides_inherited :
    ∀ (extra environ env2 : List String) (k kv : String),
      childEnv extra environ = some env2 →
      extra.find? (hasKey k) = some kv →
      env2.filter (hasKey k) = [kv] := by
  intro extra environ env2 k kv hce hf
  have h2 := (dedupFrom_filter k (extra ++ environ) [] env2 hce).2 (by simp)
  rw [find?_append_some (hasKey k) extra environ kv hf] at h2
  exact h2

/-- Witness for C9: with an extra entry A=extra over an inherited
A=inherited, the child sees the extra entry. -/
theorem childEnv_extra_overrides_inherited_witness :
    (["A=extra", "B=2"] : List String).filter (hasKey "A") = ["A=extra"] :=
  childEnv_extra_overrides_inherited ["A=extra"] ["A=inherited", "B=2"]
    ["A=extra", "B=2"] "A" "A=extra" (by decide) (by decide)

/-- Claim C4: nextPort records each returned port in the used set before
returning it and never returns a port already in the set; an offered port
already in the set is skipped and allocation retried against the next OS
answer; consequently every successful sequence of allocations in one run
yields pairwise distinct ports, all recorded in the final used set. -/
theorem nextPort_ports_distinct :
    (∀ (osp : Nat → String) (fuel : Nat) (st : PortSt) (p : String) (st' : PortSt),
      nextPort osp fuel st = some (p, st') → p ∉ st.used ∧ st'.used = p :: st.used) ∧
    (∀ (osp : Nat → String) (fuel : Nat) (st : PortSt),
      osp st.k ∈ st.used →
      nextPort osp (fuel+1) st = nextPort osp fuel { k := st.k + 1, used := st.used }) ∧
    (∀ (osp : Nat → String) (fuel n : Nat) (st : PortSt) (ps : List String) (st' : PortSt),
      allocPorts osp fuel n st = some (ps, st') →
      ps.Nodup ∧ ∀ p ∈ ps, p ∈ st'.used) := by
  refine ⟨nextPort_sound, ?_, ?_⟩
  · intro osp fuel st h
    rw [nextPort, if_pos h]
  · intro osp fuel n st ps st' h
    have hs := allocPorts_sound osp fuel n st ps st' h
    exact ⟨hs.2.1, fun p hp => (hs.1 p hp).1⟩

/-- Witness for C4: three allocations against a concrete OS oracle. -/
theorem nextPort_ports_distinct_witness :
    (["0", "1", "2"] : List String).Nodup ∧
    ∀ p ∈ (["0", "1", "2"] : List String), p ∈ (⟨3, ["2", "1", "0"]⟩ : PortSt).used :=
  nextPort_ports_distinct.2.2 (fun n => toString n) 1 3 ⟨0, []⟩ ["0", "1", "2"]
    ⟨3, ["2", "1", "0"]⟩ (by decide)

/-- Claim C3: when a task run returns an error the scheduler cancels the
shared context and never closes that task readiness signal; a signal is
closed only for a task whose run returned without error, and at most once;
and a task waiting on a failed task observes the context cancellation
error, not readiness. -/
theorem scheduler_failure_isolation :
    (∀ (ec : Bool) (oc : List (String × Option String)) (t e : String),
      (t, some e) ∈ oc → (schedFinal ec oc).canceled = true) ∧
    (∀ (ec : Bool) (oc : List (String × Option String)) (t e : String),
      (oc.map Prod.fst).Nodup → (t, some e) ∈ oc →
      t ∉ (schedFinal ec oc).closed) ∧
    (∀ (ec : Bool) (oc : List (String × Option String)) (t : String),
      t ∈ (schedFinal ec oc).closed → (t, none) ∈ oc) ∧
    (∀ (ec : Bool) (oc : List (String × Option String)) (t : String),
      (oc.map Prod.fst).Nodup → (schedFinal ec oc).closed.count t ≤ 1) ∧
    (∀ (ec : Bool) (oc : List (String × Option String)) (t e : String)
      (ts : List String), (oc.map Prod.fst).Nodup → (t, some e) ∈ oc →
      waitModel (oc.map Prod.fst) (schedFinal ec oc).closed
        (schedFinal ec oc).canceled (t :: ts) = .errRes ctxCanceledMsg) := by
  have hA : ∀ (ec : Bool) (oc : List (String × Option String)) (t e : String),
      (t, some e) ∈ oc → (schedFinal ec oc).canceled = true := by
    intro ec oc t e h
    rw [schedFinal_canceled]
    have : oc.any (fun x => x.2.isSome) = true :=
      List.any_eq_true.mpr ⟨(t, some e), h, rfl⟩
    rw [this, Bool.or_true]
  have hB : ∀ (ec : Bool) (oc : List (String × Option String)) (t e : String),
      (oc.map Prod.fst).Nodup → (t, some e) ∈ oc →
      t ∉ (schedFinal ec oc).closed := by
    intro ec oc t e hnd hmem hbad
    obtain ⟨x, hx, hxt, hxn⟩ := (schedFinal_mem_closed_iff ec oc t).mp hbad
    have hxeq : x = (t, none) := by
      obtain ⟨x1, x2⟩ := x
      simp only at hxt hxn
      rw [hxt, hxn]
    rw [hxeq] at hx
    exact Option.noConfusion (nodupKeys_snd_eq oc t (some e) none hnd hmem hx)
  have hC : ∀ (ec : Bool) (oc : List (String × Option String)) (t : String),
      t ∈ (schedFinal ec oc).closed → (t, none) ∈ oc := by
    intro ec oc t h
    obtain ⟨x, hx, hxt, hxn⟩ := (schedFinal_mem_closed_iff ec oc t).mp h
    have hxeq : x = (t, none) := by
      obtain ⟨x1, x2⟩ := x
      simp only at hxt hxn
      rw [hxt, hxn]
    exact hxeq ▸ hx
  refine ⟨hA, hB, hC, ?_, ?_⟩
  · intro ec oc t hnd
    rw [schedFinal_closed, List.count_reverse]
    calc ((oc.filter (fun x => x.2.isNone)).map Prod.fst).count t
        ≤ (oc.map Prod.fst).count t :=
          ((oc.filter_sublist (p := fun x => x.2.isNone)).map Prod.fst).count_le t
      _ ≤ 1 := List.nodup_iff_count_le_one.mp hnd t
  · intro ec oc t e ts hnd hmem
    have ht1 : t ∈ oc.map Prod.fst := List.mem_map.mpr ⟨(t, some e), hmem, rfl⟩
    have ht2 : t ∉ (schedFinal ec oc).closed := hB ec oc t e hnd hmem
    rw [waitModel, if_pos ht1, if_neg ht2, hA ec oc t e hmem, if_pos rfl]

/-- Witness for C3 at a concrete outcome list with one failed and one
successful task. -/
theorem scheduler_failure_isolation_witness :
    (schedFinal false [("a", some "boom"), ("b", none)]).canceled = true ∧
    ("a" ∉ (schedFinal false [("a", some "boom"), ("b", none)]).closed) ∧
    (("b", none) ∈ [("a", some "boom"), ("b", none)]) ∧
    (schedFinal false [("a", some "boom"), ("b", none)]).closed.count "a" ≤ 1 ∧
    waitModel ["a", "b"] (schedFinal false [("a", some "boom"), ("b", none)]).closed
      (schedFinal false [("a", some "boom"), ("b", none)]).canceled ["a"]
        = .errRes ctxCanceledMsg :=
  ⟨scheduler_failure_isolation.1 false [("a", some "boom"), ("b", none)] "a" "boom"
      (by decide),
   scheduler_failure_isolation.2.1 false [("a", some "boom"), ("b", none)] "a" "boom"
      (by decide) (by decide),
   scheduler_failure_isolation.2.2.1 false [("a", some "boom"), ("b", none)] "b"
      (by decide),
   scheduler_failure_isolation.2.2.2.1 false [("a", some "boom"), ("b", none)] "a"
      (by decide),
   scheduler_failure_isolation.2.2.2.2 false [("a", some "boom"), ("b", none)] "a"
      "boom" [] (by decide) (by decide)⟩

/-- Claim C2 counterexample: with a single task that succeeds and an
external cancellation request, the top-level run returns the context
cancellation error, not nil, refuting that a clean bring-up followed by
cancellation returns successfully. -/
theorem run_clean_cancel_not_nil :
    runModel [("a", none)] true ≠ .returns none ∧
    runModel [("a", none)] true = .returns (some ctxCanceledMsg) := by
  decide

/-- Claim C2 amended: after every startup task completed without error and
cancellation was externally requested, the top-level run returns the
context cancellation error (a non-nil error); any task failure also
surfaces as a non-nil error from the top-level run. -/
theorem run_returns_cancellation_error :
    (∀ oc : List (String × Option String), (∀ x ∈ oc, x.2 = none) →
      runModel oc true = .returns (some ctxCanceledMsg)) ∧
    (∀ (oc : List (String × Option String)) (ec : Bool) (t e : String),
      (t, some e) ∈ oc → ∃ m, runModel oc ec = .returns (some m)) := by
  constructor
  · intro oc hall
    have hcanc : (schedFinal true oc).canceled = true := by
      rw [schedFinal_canceled, Bool.true_or]
    have hclosed : ∀ t ∈ oc.map Prod.fst, t ∈ (schedFinal true oc).closed := by
      intro t ht
      obtain ⟨x, hx, hxt⟩ := List.mem_map.mp ht
      exact (schedFinal_mem_closed_iff true oc t).mpr ⟨x, hx, hxt, hall x hx⟩
    have hwait := waitModel_all_closed (oc.map Prod.fst) (schedFinal true oc).closed
      (schedFinal true oc).canceled (oc.map Prod.fst)
      (fun t ht => ⟨ht, hclosed t ht⟩)
    simp only [runModel]
    rw [hwait, hcanc, if_pos rfl]
  · intro oc ec t e hmem
    have hcanc : (schedFinal ec oc).canceled = true := by
      rw [schedFinal_canceled]
      have : oc.any (fun x => x.2.isSome) = true :=
        List.any_eq_true.mpr ⟨(t, some e), hmem, rfl⟩
      rw [this, Bool.or_true]
    simp only [runModel]
    rw [hcanc]
    cases hw : waitModel (oc.map Prod.fst) (schedFinal ec oc).closed true (oc.map Prod.fst)
      with
    | ok => exact ⟨ctxCanceledMsg, by rw [if_pos rfl]⟩
    | errRes m => exact ⟨m, rfl⟩
    | blocked =>
      exact absurd hw (waitModel_canceled_ne_blocked (oc.map Prod.fst)
        (schedFinal ec oc).closed (oc.map Prod.fst))

/-- Witness for amended C2 at concrete outcome lists. -/
theorem run_returns_cancellation_error_witness :
    runModel [("a", none)] true = .returns (some ctxCanceledMsg) ∧
    ∃ m, runModel [("a", some "boom")] false = .returns (some m) :=
  ⟨run_returns_cancellation_error.1 [("a", none)] (by decide),
   run_returns_cancellation_error.2 [("a", some "boom")] false "a" "boom" (by decide)⟩

theorem hexOfBytes_length : ∀ bs : List Nat, (hexOfBytes bs).length = 2 * bs.length := by
  intro bs
  induction bs with
  | nil => rfl
  | cons b rest ih =>
    rw [hexOfBytes]
    simp only [List.length_cons, ih]
    omega

theorem hexDigitChar_hex : ∀ n < 16, isHexChar (hexDigitChar n) = true := by
  decide

theorem hexOfBytes_hex : ∀ (bs : List Nat), ∀ c ∈ hexOfBytes bs, isHexChar c = true := by
  intro bs
  induction bs with
  | nil => intro c hc; cases hc
  | cons b rest ih =>
    intro c hc
    rw [hexOfBytes] at hc
    rcases List.mem_cons.mp hc with h | hc
    · exact h ▸ hexDigitChar_hex (b % 256 / 16) (by omega)
    rcases List.mem_cons.mp hc with h | hc
    · exact h ▸ hexDigitChar_hex (b % 16) (by omega)
    · exact ih c hc

theorem randomHexString_isHex64 (ok : Bool) (bytes : Nat → Nat) (s : String) :
    randomHexString 64 ok bytes = some s → isHex64 s := by
  intro h
  cases ok with
  | false => cases h
  | true =>
    rw [randomHexString, if_pos rfl] at h
    cases h
    constructor
    · rw [String.length_mk, hexOfBytes_length]
      simp
    · intro c hc
      exact hexOfBytes_hex _ c hc

theorem fillSecret_some (ok : Bool) (bytes : Nat → Nat) (v s : String)
    (h : fillSecret ok bytes v = some s) :
    (v = "" → isHex64 s) ∧ (v ≠ "" → s = v) := by
  unfold fillSecret at h
  constructor
  · intro he
    rw [if_pos he] at h
    exact randomHexString_isHex64 ok bytes s h
  · intro hne
    rw [if_neg hne] at h
    exact (Option.some.injEq .. ▸ h).symm

theorem fillSecret_randFail (bytes : Nat → Nat) (v : String) (he : v = "") :
    fillSecret false bytes v = none := by
  rw [fillSecret, if_pos he]
  rfl

theorem autofill_inv (P : BootParams) (fuel : Nat) (c cfg : Cluster)
    (h : autofillConfig P fuel c = some cfg) :
    ∃ c1 st1 c2 st2 c3 c4 c6 st3 c7 st4,
      stControllerExt P fuel c { k := 0, used := [] } = some (c1, st1) ∧
      stServices P fuel c1 st1 = some (c2, st2) ∧
      stSecrets P c2 = some c3 ∧
      stDispatchKey P c3 = some c4 ∧
      stTestExtras P fuel (stTLS P c4) st2 = some (c6, st3) ∧
      stPostgres P fuel c6 st3 = some (c7, st4) ∧
      cfg = c7 := by
  simp only [autofillConfig, Option.bind_eq_bind, Option.bind_eq_some, Option.some.injEq] at h
  obtain ⟨⟨c1, st1⟩, h1, ⟨c2, st2⟩, h2, c3, h3, c4, h4, ⟨c6, st3⟩, h6, ⟨c7, st4⟩, h7, hc⟩ := h
  exact ⟨c1, st1, c2, st2, c3, c4, c6, st3, c7, st4, h1, h2, h3, h4, h6, h7, hc.symm⟩

theorem stControllerExt_secrets (P : BootParams) (fuel : Nat) (c : Cluster) (st : PortSt)
    (c' : Cluster) (st' : PortSt) (h : stControllerExt P fuel c st = some (c', st')) :
    c'.systemRootToken = c.systemRootToken ∧ c'.managementToken = c.managementToken ∧
    c'.railsSessionSecretToken = c.railsSessionSecretToken ∧
    c'.blobSigningKey = c.blobSigningKey := by
  unfold stControllerExt at h
  split at h
  · simp only [Option.bind_eq_bind, Option.bind_eq_some, Option.some.injEq,
      Prod.mk.injEq] at h
    obtain ⟨hp0, hsp, pst, hp, hc, hst⟩ := h
    rw [← hc]
    exact ⟨rfl, rfl, rfl, rfl⟩
  · simp only [Option.some.injEq, Prod.mk.injEq] at h
    rw [← h.1]
    exact ⟨rfl, rfl, rfl, rfl⟩

theorem stServices_secrets (P : BootParams) (fuel : Nat) (c : Cluster) (st : PortSt)
    (c' : Cluster) (st' : PortSt) (h : stServices P fuel c st = some (c', st')) :
    c'.systemRootToken = c.systemRootToken ∧ c'.managementToken = c.managementToken ∧
    c'.railsSessionSecretToken = c.railsSessionSecretToken ∧
    c'.blobSigningKey = c.blobSigningKey := by
  simp only [stServices, Option.bind_eq_bind, Option.bind_eq_some, Option.some.injEq,
    Prod.mk.injEq] at h
  obtain ⟨x1, _, x2, _, x3, _, x4, _, x5, _, x6, _, x7, _, x8, _, x9, _, x10, _,
    x11, _, hc, hst⟩ := h
  rw [← hc]
  exact ⟨rfl, rfl, rfl, rfl⟩

theorem stSecrets_ok (P : BootParams) (c c' : Cluster) (h : stSecrets P c = some c') :
    ((c.systemRootToken = "" → isHex64 c'.systemRootToken) ∧
      (c.systemRootToken ≠ "" → c'.systemRootToken = c.systemRootToken)) ∧
    ((c.managementToken = "" → isHex64 c'.managementToken) ∧
      (c.managementToken ≠ "" → c'.managementToken = c.managementToken)) ∧
    ((c.railsSessionSecretToken = "" → isHex64 c'.railsSessionSecretToken) ∧
      (c.railsSessionSecretToken ≠ "" →
        c'.railsSessionSecretToken = c.railsSessionSecretToken)) ∧
    ((c.blobSigningKey = "" → isHex64 c'.blobSigningKey) ∧
      (c.blobSigningKey ≠ "" → c'.blobSigningKey = c.blobSigningKey)) := by
  simp only [stSecrets, Option.bind_eq_bind, Option.bind_eq_some, Option.some.injEq] at h
  obtain ⟨srt, h1, mt, h2, rst, h3, bsk, h4, hc⟩ := h
  rw [← hc]
  exact ⟨fillSecret_some P.randOk (P.rands 0) c.systemRootToken srt h1,
         fillSecret_some P.randOk (P.rands 1) c.managementToken mt h2,
         fillSecret_some P.randOk (P.rands 2) c.railsSessionSecretToken rst h3,
         fillSecret_some P.randOk (P.rands 3) c.blobSigningKey bsk h4⟩

theorem stSecrets_randFail (P : BootParams) (c c' : Cluster) (h : stSecrets P c = some c')
    (hok : P.randOk = false) :
    c.systemRootToken ≠ "" ∧ c.managementToken ≠ "" ∧
    c.railsSessionSecretToken ≠ "" ∧ c.blobSigningKey ≠ "" := by
  simp only [stSecrets, Option.bind_eq_bind, Option.bind_eq_some, Option.some.injEq] at h
  obtain ⟨srt, h1, mt, h2, rst, h3, bsk, h4, hc⟩ := h
  refine ⟨fun he => ?_, fun he => ?_, fun he => ?_, fun he => ?_⟩
  · rw [hok, fillSecret_randFail (P.rands 0) c.systemRootToken he] at h1
    cases h1
  · rw [hok, fillSecret_randFail (P.rands 1) c.managementToken he] at h2
    cases h2
  · rw [hok, fillSecret_randFail (P.rands 2) c.railsSessionSecretToken he] at h3
    cases h3
  · rw [hok, fillSecret_randFail (P.rands 3) c.blobSigningKey he] at h4
    cases h4

theorem stDispatchKey_secrets (P : BootParams) (c c' : Cluster)
    (h : stDispatchKey P c = some c') :
    c'.systemRootToken = c.systemRootToken ∧ c'.managementToken = c.managementToken ∧
    c'.railsSessionSecretToken = c.railsSessionSecretToken ∧
    c'.blobSigningKey = c.blobSigningKey := by
  unfold stDispatchKey at h
  split at h
  · cases hk : P.dispatchKeySrc with
    | none => rw [hk] at h; cases h
    | some key =>
      rw [hk] at h
      simp only [Option.some.injEq] at h
      rw [← h]
      exact ⟨rfl, rfl, rfl, rfl⟩
  · simp only [Option.some.injEq] at h
    rw [← h]
    exact ⟨rfl, rfl, rfl, rfl⟩

theorem stTLS_secrets (P : BootParams) (c : Cluster) :
    (stTLS P c).systemRootToken = c.systemRootToken ∧
    (stTLS P c).managementToken = c.managementToken ∧
    (stTLS P c).railsSessionSecretToken = c.railsSessionSecretToken ∧
    (stTLS P c).blobSigningKey = c.blobSigningKey := by
  unfold stTLS
  split <;> exact ⟨rfl, rfl, rfl, rfl⟩

theorem stTestExtras_secrets (P : BootParams) (fuel : Nat) (c : Cluster) (st : PortSt)
    (c' : Cluster) (st' : PortSt) (h : stTestExtras P fuel c st = some (c', st')) :
    c'.systemRootToken = c.systemRootToken ∧ c'.managementToken = c.managementToken ∧
    c'.railsSessionSecretToken = c.railsSessionSecretToken ∧
    c'.blobSigningKey = c.blobSigningKey := by
  unfold stTestExtras at h
  split at h
  · simp only [Option.bind_eq_bind, Option.bind_eq_some, Option.some.injEq,
      Prod.mk.injEq] at h
    obtain ⟨pst, hp, vols, hv, hc, hst⟩ := h
    rw [← hc]
    exact ⟨rfl, rfl, rfl, rfl⟩
  · simp only [Option.some.injEq, Prod.mk.injEq] at h
    rw [← h.1]
    exact ⟨rfl, rfl, rfl, rfl⟩

theorem stPostgres_secrets (P : BootParams) (fuel : Nat) (c : Cluster) (st : PortSt)
    (c' : Cluster) (st' : PortSt) (h : stPostgres P fuel c st = some (c', st')) :
    c'.systemRootToken = c.systemRootToken ∧ c'.managementToken = c.managementToken ∧
    c'.railsSessionSecretToken = c.railsSessionSecretToken ∧
    c'.blobSigningKey = c.blobSigningKey := by
  unfold stPostgres at h
  split at h
  · simp only [Option.bind_eq_bind, Option.bind_eq_some, Option.some.injEq,
      Prod.mk.injEq] at h
    obtain ⟨pst, hp, hc, hst⟩ := h
    rw [← hc]
    exact ⟨rfl, rfl, rfl, rfl⟩
  · simp only [Option.some.injEq, Prod.mk.injEq] at h
    rw [← h.1]
    exact ⟨rfl, rfl, rfl, rfl⟩

/-- Claim C5: autofill sets each of the four secret fields to a fresh
64-character hexadecimal string exactly when that field was empty in the
input; a non-empty field is returned unchanged; and when the random source
is unavailable and some secret field needs generating, autofill panics
(none) instead of producing an empty secret. -/
theorem autofill_secrets_spec :
    (∀ (P : BootParams) (fuel : Nat) (c cfg : Cluster),
      autofillConfig P fuel c = some cfg →
      ((c.systemRootToken = "" → isHex64 cfg.systemRootToken) ∧
        (c.systemRootToken ≠ "" → cfg.systemRootToken = c.systemRootToken)) ∧
      ((c.managementToken = "" → isHex64 cfg.managementToken) ∧
        (c.managementToken ≠ "" → cfg.managementToken = c.managementToken)) ∧
      ((c.railsSessionSecretToken = "" → isHex64 cfg.railsSessionSecretToken) ∧
        (c.railsSessionSecretToken ≠ "" →
          cfg.railsSessionSecretToken = c.railsSessionSecretToken)) ∧
      ((c.blobSigningKey = "" → isHex64 cfg.blobSigningKey) ∧
        (c.blobSigningKey ≠ "" → cfg.blobSigningKey = c.blobSigningKey))) ∧
    (∀ (P : BootParams) (fuel : Nat) (c : Cluster),
      P.randOk = false →
      (c.systemRootToken = "" ∨ c.managementToken = "" ∨
        c.railsSessionSecretToken = "" ∨ c.blobSigningKey = "") →
      autofillConfig P fuel c = none) := by
  constructor
  · intro P fuel c cfg h
    obtain ⟨c1, st1, c2, st2, c3, c4, c6, st3, c7, st4, h1, h2, h3, h4, h6, h7, hc⟩ :=
      autofill_inv P fuel c cfg h
    obtain ⟨e1a, e1b, e1c, e1d⟩ := stControllerExt_secrets P fuel c _ c1 st1 h1
    obtain ⟨e2a, e2b, e2c, e2d⟩ := stServices_secrets P fuel c1 st1 c2 st2 h2
    obtain ⟨e4a, e4b, e4c, e4d⟩ := stDispatchKey_secrets P c3 c4 h4
    obtain ⟨e5a, e5b, e5c, e5d⟩ := stTLS_secrets P c4
    obtain ⟨e6a, e6b, e6c, e6d⟩ := stTestExtras_secrets P fuel (stTLS P c4) st2 c6 st3 h6
    obtain ⟨e7a, e7b, e7c, e7d⟩ := stPostgres_secrets P fuel c6 st3 c7 st4 h7
    have hsec := stSecrets_ok P c2 c3 h3
    rw [hc, e7a, e7b, e7c, e7d, e6a, e6b, e6c, e6d, e5a, e5b, e5c, e5d, e4a, e4b, e4c, e4d]
    rw [e2a, e2b, e2c, e2d, e1a, e1b, e1c, e1d] at hsec
    exact hsec
  · intro P fuel c hok hemp
    cases hq : autofillConfig P fuel c with
    | none => rfl
    | some cfg =>
      exfalso
      obtain ⟨c1, st1, c2, st2, c3, c4, c6, st3, c7, st4, h1, h2, h3, h4, h6, h7, hc⟩ :=
        autofill_inv P fuel c cfg hq
      obtain ⟨e1a, e1b, e1c, e1d⟩ := stControllerExt_secrets P fuel c _ c1 st1 h1
      obtain ⟨e2a, e2b, e2c, e2d⟩ := stServices_secrets P fuel c1 st1 c2 st2 h2
      have hne := stSecrets_randFail P c2 c3 h3 hok
      rw [e2a, e1a, e2b, e1b, e2c, e1c, e2d, e1d] at hne
      rcases hemp with he | he | he | he
      · exact hne.1 he
      · exact hne.2.1 he
      · exact hne.2.2.1 he
      · exact hne.2.2.2 he

/-- Witness for C5: at the concrete parameters the generated root token is
a 64-character hex string, and with a dead random source autofill fails. -/
theorem autofill_secrets_spec_witness :
    isHex64 testFilled.systemRootToken ∧
    autofillConfig { testParams with randOk := false } 30 (emptyClusterWithID "zzzzz")
      = none :=
  ⟨(autofill_secrets_spec.1 testParams 30 (emptyClusterWithID "zzzzz") testFilled
      (by decide)).1.1 rfl,
   autofill_secrets_spec.2 { testParams with randOk := false } 30
      (emptyClusterWithID "zzzzz") rfl (Or.inl rfl)⟩

theorem strCancelLeft (a b c : String) (h : a ++ b = a ++ c) : b = c := by
  apply String.ext
  have hd := congrArg String.data h
  rw [String.data_append, String.data_append] at hd
  exact List.append_cancel_left hd

theorem strCancelRight (a b c : String) (h : a ++ c = b ++ c) : a = b := by
  apply String.ext
  have hd := congrArg String.data h
  rw [String.data_append, String.data_append] at hd
  exact List.append_cancel_right hd

theorem joinHostPort_inj (h p1 p2 : String)
    (he : joinHostPort h p1 = joinHostPort h p2) : p1 = p2 :=
  strCancelLeft (h ++ ":") p1 p2 he

theorem joinHostPort_ne_empty (h p : String) : joinHostPort h p ≠ "" := by
  intro he
  have hd := congrArg String.data he
  rw [joinHostPort, String.data_append, String.data_append] at hd
  simp at hd

theorem keepDataDir_ne (td : String) :
    td ++ "/keep" ++ toString 0 ++ ".data" ≠ td ++ "/keep" ++ toString 1 ++ ".data" := by
  intro he
  have h1 := strCancelLeft (td ++ "/keep") (toString 0) (toString 1)
    (strCancelRight (td ++ "/keep" ++ toString 0) (td ++ "/keep" ++ toString 1) ".data" he)
  exact absurd h1 (by decide)

theorem nextPort_mono (osp : Nat → String) (fuel : Nat) (st : PortSt)
    (x : String × PortSt) (h : nextPort osp fuel st = some x) : st.used ⊆ x.2.used := by
  rw [(nextPort_sound osp fuel st x.1 x.2 h).2]
  exact List.subset_cons_self x.1 st.used

theorem portFor_mono (P : BootParams) (fuel : Nat) (p0 : String) (st : PortSt)
    (x : String × PortSt) (h : portFor P fuel p0 st = some x) : st.used ⊆ x.2.used := by
  unfold portFor at h
  split at h
  · exact nextPort_mono P.osp fuel st x h
  · cases h
    exact List.Subset.refl _

theorem extFor_nonempty (osp : Nat → String) (fuel : Nat) (lh : String) (kind : ExtKind)
    (svc : ServiceCfg) (st : PortSt) (hh : svc.externalURL.host ≠ "") :
    extFor osp fuel lh kind svc st = some (svc.externalURL, st) := by
  unfold extFor
  rw [if_neg hh]

theorem extFor_noExt (osp : Nat → String) (fuel : Nat) (lh : String)
    (svc : ServiceCfg) (st : PortSt) :
    extFor osp fuel lh .noExt svc st = some (svc.externalURL, st) := by
  unfold extFor
  split <;> rfl

theorem extFor_https_empty (osp : Nat → String) (fuel : Nat) (lh : String)
    (svc : ServiceCfg) (st : PortSt) (hh : svc.externalURL.host = "") :
    extFor osp fuel lh .httpsExt svc st = (nextPort osp fuel st).map
      (fun x => ((⟨"https", joinHostPort lh x.1⟩ : GoURL), x.2)) := by
  unfold extFor
  rw [if_pos hh]

theorem extFor_wss_empty (osp : Nat → String) (fuel : Nat) (lh : String)
    (svc : ServiceCfg) (st : PortSt) (hh : svc.externalURL.host = "") :
    extFor osp fuel lh .wssExt svc st = (nextPort osp fuel st).map
      (fun x => ((⟨"wss", joinHostPort lh x.1⟩ : GoURL), x.2)) := by
  unfold extFor
  rw [if_pos hh]

theorem extFor_mono (osp : Nat → String) (fuel : Nat) (lh : String) (kind : ExtKind)
    (svc : ServiceCfg) (st : PortSt) (x : GoURL × PortSt)
    (h : extFor osp fuel lh kind svc st = some x) : st.used ⊆ x.2.used := by
  by_cases hh : svc.externalURL.host = ""
  · cases kind with
    | httpsExt =>
      rw [extFor_https_empty osp fuel lh svc st hh, Option.map_eq_some'] at h
      obtain ⟨a, ha, hx⟩ := h
      rw [← hx]
      exact nextPort_mono osp fuel st a ha
    | wssExt =>
      rw [extFor_wss_empty osp fuel lh svc st hh, Option.map_eq_some'] at h
      obtain ⟨a, ha, hx⟩ := h
      rw [← hx]
      exact nextPort_mono osp fuel st a ha
    | noExt =>
      rw [extFor_noExt osp fuel lh svc st] at h
      cases h
      exact List.Subset.refl _
  · rw [extFor_nonempty osp fuel lh kind svc st hh] at h
    cases h
    exact List.Subset.refl _

theorem intsFor_empty (osp : Nat → String) (fuel : Nat) (lh : String)
    (svc : ServiceCfg) (st : PortSt) (hi : svc.internalURLs = []) :
    intsFor osp fuel lh svc st = (nextPort osp fuel st).map
      (fun x => ([(⟨"http", joinHostPort lh x.1⟩ : GoURL)], x.2)) := by
  unfold intsFor
  rw [hi]
  rfl

theorem intsFor_nonempty (osp : Nat → String) (fuel : Nat) (lh : String)
    (svc : ServiceCfg) (st : PortSt) (hi : svc.internalURLs ≠ []) :
    intsFor osp fuel lh svc st = some (svc.internalURLs, st) := by
  unfold intsFor
  rw [if_neg (fun hc => hi (List.isEmpty_iff.mp hc))]

theorem intsFor_mono (osp : Nat → String) (fuel : Nat) (lh : String)
    (svc : ServiceCfg) (st : PortSt) (x : List GoURL × PortSt)
    (h : intsFor osp fuel lh svc st = some x) : st.used ⊆ x.2.used := by
  by_cases hi : svc.internalURLs = []
  · rw [intsFor_empty osp fuel lh svc st hi, Option.map_eq_some'] at h
    obtain ⟨a, ha, hx⟩ := h
    rw [← hx]
    exact nextPort_mono osp fuel st a ha
  · rw [intsFor_nonempty osp fuel lh svc st hi] at h
    cases h
    exact List.Subset.refl _

theorem fillService_mono (osp : Nat → String) (fuel : Nat) (lh : String) (kind : ExtKind)
    (svc : ServiceCfg) (st : PortSt) (y : ServiceCfg × PortSt)
    (h : fillService osp fuel lh kind svc st = some y) : st.used ⊆ y.2.used := by
  simp only [fillService, Option.bind_eq_bind, Option.bind_eq_some, Option.some.injEq] at h
  obtain ⟨ext, hext, ints, hints, hy⟩ := h
  rw [← hy]
  exact (extFor_mono osp fuel lh kind svc st ext hext).trans
    (intsFor_mono osp fuel lh svc ext.2 ints hints)

theorem fillDispatchCloud_mono (P : BootParams) (fuel : Nat) (svc : ServiceCfg)
    (st : PortSt) (y : ServiceCfg × PortSt) (h : fillDispatchCloud P fuel svc st = some y) :
    st.used ⊆ y.2.used := by
  unfold fillDispatchCloud at h
  split at h
  · cases h
    exact List.Subset.refl _
  · exact fillService_mono P.osp fuel P.listenHost .noExt svc st y h

theorem fillService_ext_preserved (osp : Nat → String) (fuel : Nat) (lh : String)
    (kind : ExtKind) (svc : ServiceCfg) (st : PortSt) (y : ServiceCfg × PortSt)
    (hh : svc.externalURL.host ≠ "") (h : fillService osp fuel lh kind svc st = some y) :
    y.1.externalURL = svc.externalURL := by
  simp only [fillService, Option.bind_eq_bind, Option.bind_eq_some, Option.some.injEq] at h
  obtain ⟨ext, hext, ints, hints, hy⟩ := h
  rw [extFor_nonempty osp fuel lh kind svc st hh] at hext
  cases hext
  rw [← hy]

theorem fillService_noExt_emptyInts (osp : Nat → String) (fuel : Nat) (lh : String)
    (svc : ServiceCfg) (st : PortSt) (y : ServiceCfg × PortSt)
    (hi : svc.internalURLs = [])
    (h : fillService osp fuel lh .noExt svc st = some y) :
    ∃ p, y.1.internalURLs = [(⟨"http", joinHostPort lh p⟩ : GoURL)] ∧
      p ∉ st.used ∧ y.2.used = p :: st.used := by
  simp only [fillService, Option.bind_eq_bind, Option.bind_eq_some, Option.some.injEq] at h
  obtain ⟨ext, hext, ints, hints, hy⟩ := h
  rw [extFor_noExt osp fuel lh svc st] at hext
  cases hext
  rw [intsFor_empty osp fuel lh svc st hi, Option.map_eq_some'] at hints
  obtain ⟨a, ha, hx⟩ := hints
  have hs := nextPort_sound osp fuel st a.1 a.2 ha
  refine ⟨a.1, ?_, hs.1, ?_⟩
  · rw [← hy, ← hx]
  · rw [← hy, ← hx]
    exact hs.2

theorem ensureDir_statOk (sd : String → StatRes) (mk1 : String → Option String)
    (d : String) (hs : sd (d ++ "/.") = StatRes.okRes) : ensureDir sd mk1 d = some () := by
  unfold ensureDir
  rw [hs]

theorem mkVolumes_allOk (sd : String → StatRes) (mk1 : String → Option String)
    (cid td : String) (hs : ∀ d, sd d = StatRes.okRes) :
    ∀ (urls : List GoURL) (n : Nat), (mkVolumes sd mk1 cid td urls n).isSome := by
  intro urls
  induction urls with
  | nil => intro n; rfl
  | cons u rest ih =>
    intro n
    rw [mkVolumes, ensureDir_statOk sd mk1 _ (hs _)]
    show ((mkVolumes sd mk1 cid td rest (n+1)).map _).isSome = true
    rw [isSome_map]
    exact ih (n+1)

theorem mkVolumes_pair (sd : String → StatRes) (mk1 : String → Option String)
    (cid td : String) (u1 u2 : GoURL) (vols : List (String × Volume))
    (h : mkVolumes sd mk1 cid td [u1, u2] 0 = some vols) :
    vols.map (fun v => (v.2.driver, v.2.root)) =
      [("Directory", td ++ "/keep" ++ toString 0 ++ ".data"),
       ("Directory", td ++ "/keep" ++ toString 1 ++ ".data")] ∧
    vols.length = 2 := by
  simp only [mkVolumes, Option.bind_eq_some, Option.map_eq_some', Option.map_some',
    Option.some.injEq] at h
  obtain ⟨x, hd0, a, ⟨y, hd1, ha⟩, hv⟩ := h
  rw [← hv, ← ha]
  exact ⟨rfl, rfl⟩

theorem stSecrets_services (P : BootParams) (c c' : Cluster)
    (h : stSecrets P c = some c') :
    c'.controller = c.controller ∧ c'.keepstore = c.keepstore := by
  simp only [stSecrets, Option.bind_eq_bind, Option.bind_eq_some, Option.some.injEq] at h
  obtain ⟨srt, h1, mt, h2, rst, h3, bsk, h4, hc⟩ := h
  rw [← hc]
  exact ⟨rfl, rfl⟩

theorem stDispatchKey_services (P : BootParams) (c c' : Cluster)
    (h : stDispatchKey P c = some c') :
    c'.controller = c.controller ∧ c'.keepstore = c.keepstore := by
  unfold stDispatchKey at h
  split at h
  · cases hk : P.dispatchKeySrc with
    | none => rw [hk] at h; cases h
    | some key =>
      rw [hk] at h
      simp only [Option.some.injEq] at h
      rw [← h]
      exact ⟨rfl, rfl⟩
  · simp only [Option.some.injEq] at h
    rw [← h]
    exact ⟨rfl, rfl⟩

theorem stTLS_services (P : BootParams) (c : Cluster) :
    (stTLS P c).controller = c.controller ∧ (stTLS P c).keepstore = c.keepstore := by
  unfold stTLS
  split <;> exact ⟨rfl, rfl⟩

theorem stControllerExt_scenario (P : BootParams) (fuel : Nat) (c : Cluster) (st : PortSt)
    (c' : Cluster) (st' : PortSt) (hh : c.controller.externalURL.host = "")
    (h : stControllerExt P fuel c st = some (c', st')) :
    c'.controller.externalURL.scheme = "https" ∧
    c'.controller.externalURL.host ≠ "" ∧
    c'.keepstore = c.keepstore := by
  unfold stControllerExt at h
  rw [if_pos hh] at h
  simp only [Option.bind_eq_bind, Option.bind_eq_some, Option.some.injEq,
    Prod.mk.injEq] at h
  obtain ⟨hp, hsp, pst, hpf, hc, hst⟩ := h
  rw [← hc]
  exact ⟨rfl, joinHostPort_ne_empty _ _, rfl⟩

theorem stServices_scenario (P : BootParams) (fuel : Nat) (c : Cluster) (st : PortSt)
    (c' : Cluster) (st' : PortSt)
    (hks : c.keepstore = emptySvc)
    (hctrl : c.controller.externalURL.host ≠ "")
    (h : stServices P fuel c st = some (c', st')) :
    c'.controller.externalURL = c.controller.externalURL ∧
    ∃ p, c'.keepstore.internalURLs = [(⟨"http", joinHostPort P.listenHost p⟩ : GoURL)] ∧
      p ∈ st'.used := by
  simp only [stServices, Option.bind_eq_bind, Option.bind_eq_some, Option.some.injEq,
    Prod.mk.injEq] at h
  obtain ⟨x1, h1, x2, h2, x3, h3, x4, h4, x5, h5, x6, h6, x7, h7, x8, h8, x9, h9,
    x10, h10, x11, h11, hc, hst⟩ := h
  have hi : c.keepstore.internalURLs = [] := by rw [hks]; rfl
  obtain ⟨p, hpu, hpnew, hpused⟩ :=
    fillService_noExt_emptyInts P.osp fuel P.listenHost c.keepstore x5.2 x6 hi h6
  have hmem : p ∈ x6.2.used := by
    rw [hpused]
    exact List.mem_cons_self p x5.2.used
  have hchain : x6.2.used ⊆ x11.2.used :=
    ((((fillService_mono P.osp fuel P.listenHost .noExt c.railsAPI x6.2 x7 h7).trans
      (fillService_mono P.osp fuel P.listenHost .httpsExt c.webDAV x7.2 x8 h8)).trans
      (fillService_mono P.osp fuel P.listenHost .httpsExt c.webDAVDownload x8.2 x9 h9)).trans
      (fillService_mono P.osp fuel P.listenHost .wssExt c.websocket x9.2 x10 h10)).trans
      (fillService_mono P.osp fuel P.listenHost .httpsExt c.workbench1 x10.2 x11 h11)
  rw [← hc, ← hst]
  exact ⟨fillService_ext_preserved P.osp fuel P.listenHost .httpsExt c.controller st x1
          hctrl h1,
         p, hpu, hchain hmem⟩

theorem stTestExtras_scenario (P : BootParams) (fuel : Nat) (c : Cluster) (st : PortSt)
    (c' : Cluster) (st' : PortSt) (p1 : String)
    (hT : P.clusterType = "test")
    (hks : c.keepstore.internalURLs = [(⟨"http", joinHostPort P.listenHost p1⟩ : GoURL)])
    (hp1 : p1 ∈ st.used)
    (h : stTestExtras P fuel c st = some (c', st')) :
    c'.keepstore.internalURLs.length = 2 ∧
    c'.volumes.length = 2 ∧
    (∀ v ∈ c'.volumes, v.2.driver = "Directory" ∧ ∃ rest, v.2.root = P.tempdir ++ rest) ∧
    (c'.volumes.map (fun v => v.2.root)).Nodup ∧
    c'.controller = c.controller ∧
    c'.postgresConn = c.postgresConn := by
  unfold stTestExtras at h
  rw [if_pos hT] at h
  simp only [Option.bind_eq_bind, Option.bind_eq_some, Option.some.injEq,
    Prod.mk.injEq] at h
  obtain ⟨pst, hnp, vols, hv, hc, hst⟩ := h
  have hsnd := nextPort_sound P.osp fuel st pst.1 pst.2 hnp
  have hne : pst.1 ≠ p1 := fun he => hsnd.1 (he ▸ hp1)
  have hu : insertURL c.keepstore.internalURLs
      (⟨"http", joinHostPort P.listenHost pst.1⟩ : GoURL)
      = [(⟨"http", joinHostPort P.listenHost p1⟩ : GoURL),
         (⟨"http", joinHostPort P.listenHost pst.1⟩ : GoURL)] := by
    rw [hks]
    unfold insertURL
    rw [if_neg ?hmem]
    · rfl
    case hmem =>
      intro hmem
      rw [List.mem_singleton] at hmem
      have hho : joinHostPort P.listenHost pst.1 = joinHostPort P.listenHost p1 :=
        congrArg GoURL.host hmem
      exact hne (joinHostPort_inj P.listenHost pst.1 p1 hho)
  rw [hu] at hv
  obtain ⟨hmap, hlen⟩ := mkVolumes_pair P.statDir P.mkdirRes c.clusterID P.tempdir _ _
    vols hv
  have hroots : vols.map (fun v => v.2.root) =
      [P.tempdir ++ "/keep" ++ toString 0 ++ ".data",
       P.tempdir ++ "/keep" ++ toString 1 ++ ".data"] := by
    have h2 := congrArg (List.map Prod.snd) hmap
    rw [List.map_map] at h2
    exact h2
  rw [← hc]
  refine ⟨?_, hlen, ?_, ?_, rfl, rfl⟩
  · rw [hu]
    rfl
  · intro v hv2
    have hmem2 : (v.2.driver, v.2.root) ∈
        [("Directory", P.tempdir ++ "/keep" ++ toString 0 ++ ".data"),
         ("Directory", P.tempdir ++ "/keep" ++ toString 1 ++ ".data")] := by
      rw [← hmap]
      exact List.mem_map.mpr ⟨v, hv2, rfl⟩
    rcases List.mem_cons.mp hmem2 with hm | hm
    · refine ⟨congrArg Prod.fst hm, "/keep" ++ toString 0 ++ ".data", ?_⟩
      rw [show v.2.root = P.tempdir ++ "/keep" ++ toString 0 ++ ".data" from
        congrArg Prod.snd hm]
      simp only [String.append_assoc]
    rcases List.mem_cons.mp hm with hm2 | hm2
    · refine ⟨congrArg Prod.fst hm2, "/keep" ++ toString 1 ++ ".data", ?_⟩
      rw [show v.2.root = P.tempdir ++ "/keep" ++ toString 1 ++ ".data" from
        congrArg Prod.snd hm2]
      simp only [String.append_assoc]
    · cases hm2
  · rw [hroots]
    refine List.nodup_cons.mpr ⟨?_, List.nodup_singleton _⟩
    intro hbad
    rw [List.mem_singleton] at hbad
    exact keepDataDir_ne P.tempdir hbad

theorem stPostgres_scenario (P : BootParams) (fuel : Nat) (c : Cluster) (st : PortSt)
    (c' : Cluster) (st' : PortSt) (hO : P.ownTemporaryDatabase = true)
    (h : stPostgres P fuel c st = some (c', st')) :
    c'.postgresConn.lookup "dbname" = some "arvados_test" ∧
    c'.keepstore = c.keepstore ∧ c'.controller = c.controller ∧
    c'.volumes = c.volumes := by
  unfold stPostgres at h
  rw [if_pos hO] at h
  simp only [Option.bind_eq_bind, Option.bind_eq_some, Option.some.injEq,
    Prod.mk.injEq] at h
  obtain ⟨pst, hp, hc, hst⟩ := h
  rw [← hc]
  exact ⟨rfl, rfl, rfl, rfl⟩

/-- Claim C8 amended: from a configuration empty except for the cluster
identifier, in test run mode and with the supervisor owning its temporary
database, autofill yields a controller external URL with scheme https, a
Postgres block with dbname arvados_test, exactly two keepstore internal
URLs, and exactly two volumes, each with the Directory driver and a
distinct root under the workspace; and the volume loop accepts
pre-existing directories (an all-ok stat makes it succeed without any
mkdir). -/
theorem autofill_test_mode_scenario :
    (∀ (P : BootParams) (fuel : Nat) (cfg : Cluster),
      P.clusterType = "test" → P.ownTemporaryDatabase = true →
      autofillConfig P fuel (emptyClusterWithID "zzzzz") = some cfg →
      cfg.controller.externalURL.scheme = "https" ∧
      cfg.postgresConn.lookup "dbname" = some "arvados_test" ∧
      cfg.keepstore.internalURLs.length = 2 ∧
      cfg.volumes.length = 2 ∧
      (∀ v ∈ cfg.volumes, v.2.driver = "Directory" ∧
        ∃ rest, v.2.root = P.tempdir ++ rest) ∧
      (cfg.volumes.map (fun v => v.2.root)).Nodup) ∧
    (∀ (sd : String → StatRes) (mk1 : String → Option String) (cid td : String)
      (urls : List GoURL) (n : Nat), (∀ d, sd d = StatRes.okRes) →
      (mkVolumes sd mk1 cid td urls n).isSome) := by
  constructor
  · intro P fuel cfg hT hO h
    obtain ⟨c1, st1, c2, st2, c3, c4, c6, st3, c7, st4, h1, h2, h3, h4, h6, h7, hc⟩ :=
      autofill_inv P fuel (emptyClusterWithID "zzzzz") cfg h
    obtain ⟨e1s, e1h, e1k⟩ := stControllerExt_scenario P fuel (emptyClusterWithID "zzzzz")
      _ c1 st1 rfl h1
    have hks1 : c1.keepstore = emptySvc := e1k
    obtain ⟨e2c, p1, e2k, e2p⟩ := stServices_scenario P fuel c1 st1 c2 st2 hks1 e1h h2
    obtain ⟨e3c, e3k⟩ := stSecrets_services P c2 c3 h3
    obtain ⟨e4c, e4k⟩ := stDispatchKey_services P c3 c4 h4
    obtain ⟨e5c, e5k⟩ := stTLS_services P c4
    have hks5 : (stTLS P c4).keepstore.internalURLs =
        [(⟨"http", joinHostPort P.listenHost p1⟩ : GoURL)] := by
      rw [e5k, e4k, e3k, e2k]
    obtain ⟨f1, f2, f3, f4, f5, f6⟩ := stTestExtras_scenario P fuel (stTLS P c4) st2 c6
      st3 p1 hT hks5 e2p h6
    obtain ⟨g1, g2, g3, g4⟩ := stPostgres_scenario P fuel c6 st3 c7 st4 hO h7
    subst hc
    refine ⟨?_, g1, ?_, ?_, ?_, ?_⟩
    · rw [g3, f5, e5c, e4c, e3c, e2c, e1s]
    · rw [g2]
      exact f1
    · rw [g4]
      exact f2
    · rw [g4]
      exact f3
    · rw [g4]
      exact f4
  · intro sd mk1 cid td urls n hs
    exact mkVolumes_allOk sd mk1 cid td hs urls n

/-- Claim C8 counterexample: in test run mode with an otherwise empty
configuration, autofill succeeds but, because the supervisor was not asked
to own a temporary database, the Postgres connection block has no
arvados_test dbname, refuting the claim that test run mode alone produces
it. -/
theorem autofill_test_without_own_db :
    (autofillConfig { testParams with ownTemporaryDatabase := false } 30
      (emptyClusterWithID "zzzzz")).isSome = true ∧
    ((autofillConfig { testParams with ownTemporaryDatabase := false } 30
      (emptyClusterWithID "zzzzz")).getD
        (emptyClusterWithID "zzzzz")).postgresConn.lookup "dbname"
      ≠ some "arvados_test" := by
  decide

/-- Witness for amended C8 at the concrete parameters. -/
theorem autofill_test_mode_scenario_witness :
    (testFilled.controller.externalURL.scheme = "https" ∧
     testFilled.postgresConn.lookup "dbname" = some "arvados_test" ∧
     testFilled.keepstore.internalURLs.length = 2 ∧
     testFilled.volumes.length = 2 ∧
     (∀ v ∈ testFilled.volumes, v.2.driver = "Directory" ∧
       ∃ rest, v.2.root = testParams.tempdir ++ rest) ∧
     (testFilled.volumes.map (fun v => v.2.root)).Nodup) ∧
    (mkVolumes (fun _ => StatRes.okRes) (fun _ => some "mkdir failed") "zzzzz" "/w"
      [(⟨"http", "h:1"⟩ : GoURL)] 0).isSome :=
  ⟨autofill_test_mode_scenario.1 testParams 30 testFilled rfl rfl (by decide),
   autofill_test_mode_scenario.2 (fun _ => StatRes.okRes) (fun _ => some "mkdir failed")
     "zzzzz" "/w" [(⟨"http", "h:1"⟩ : GoURL)] 0 (fun _ => rfl)⟩

end ArvadosBoot
